import Mathlib

/-!
Shallow embedding of the request-field validation engine
(`src/lib/request/validation/validator.ts`, namespace `Validator`).

JavaScript runtime values are modelled by `JSVal`; the data buckets
(`request.query` / `request.body` / `request.params`) are association lists
from property names to values, as a JS object is.  Asynchronous rule
predicates and message producers are modelled as functions into
`Except JSVal _`: `.error e` models the JS function throwing the value `e`
(the engine awaits them sequentially, so the `Promise` layer adds nothing).

The one piece of host behaviour that is not translated literally is the
string form of `new Date(value)`: its validity is taken as an oracle
parameter `dateTimeIsNaN` modelling `isNaN(new Date(value).getTime())`,
since no claim depends on a concrete calendar parse.
-/

namespace NoreValidator

/-- A JavaScript runtime value, restricted to the data shapes a deserialized
request bucket can hold (no functions, no symbols). -/
inductive JSVal where
  | undefined : JSVal
  | null : JSVal
  | bool (b : Bool) : JSVal
  | num (n : Int) : JSVal
  | str (s : String) : JSVal
  | arr (elems : List JSVal) : JSVal
  | obj (props : List (String × JSVal)) : JSVal

/-- A JS object viewed as a property list; `data[field]` is `jsGet`. -/
abbrev Data := List (String × JSVal)

/-- Property access `data[field]`: a missing property reads as `undefined`. -/
def jsGet (data : Data) (field : String) : JSVal :=
  match data with
  | [] => .undefined
  | (k, v) :: rest => if k = field then v else jsGet rest field

/-- `Validator.DataOriginType`: `"query" | "body" | "params"`. -/
inductive DataOriginType where
  | query : DataOriginType
  | body : DataOriginType
  | params : DataOriginType
deriving DecidableEq

/-- `Validator.FieldType`: the fixed enumeration of declared field types. -/
inductive FieldType where
  | string : FieldType
  | object : FieldType
  | array : FieldType
  | bool : FieldType
  | date : FieldType
  | timestamp : FieldType
  | double : FieldType
  | int : FieldType
  | long : FieldType
  | decimal : FieldType
deriving DecidableEq

/-- The TS string literal denoting a `FieldType`, as interpolated into the
default type-error message `"must be a valid ${fieldType}"`. -/
def fieldTypeName : FieldType → String
  | .string => "string"
  | .object => "object"
  | .array => "array"
  | .bool => "bool"
  | .date => "date"
  | .timestamp => "timestamp"
  | .double => "double"
  | .int => "int"
  | .long => "long"
  | .decimal => "decimal"

/-- `Validator.FieldValidationOptions`.  `type` is either a bare type or a
`[type, customMessage]` pair; `required` is `boolean | string | undefined`;
`rules` holds identifiers resolved by a `RuleEnv` (the TS object stores the
rule closures inline, which a strictly positive Lean structure cannot; the
environment indirection is observationally the same). -/
structure FieldValidationOptions where
  type : FieldType ⊕ (FieldType × String)
  required : Option (Bool ⊕ String) := none
  rules : List Nat := []
deriving DecidableEq

/-- The `message` member of `Validator.RuleType`:
`string | ((value, options, data) => string | Promise<string>)`. -/
inductive MessageSpec where
  | static (s : String) : MessageSpec
  | fn (f : JSVal → FieldValidationOptions → Data → Except JSVal String) : MessageSpec

/-- `Validator.RuleType`: a predicate plus an optional message producer.
`.error e` models the JS function throwing `e`. -/
structure RuleImpl where
  validator : JSVal → FieldValidationOptions → Data → Except JSVal Bool
  message : Option MessageSpec := none

/-- Resolves rule identifiers stored in `FieldValidationOptions.rules` to
their implementations. -/
abbrev RuleEnv := Nat → RuleImpl

/-- `Validator.ValidationError`: one accumulated error entry. -/
structure ValidationError where
  origin : DataOriginType
  field : String
  type : FieldType
  value : JSVal
  message : List String

/-- `Validator.ValidationResult` as `validate` returns it (the `message`
summary is always set on return). -/
structure ValidationResult where
  message : String
  errors : List ValidationError

/-- The schema argument `options`: a JS object literal, i.e. an ordered
association list of field names to their validation options (JS object keys
are unique; theorems that need this take a `Nodup` hypothesis). -/
abbrev ValidateOptions := List (String × FieldValidationOptions)

/-- `fieldType` resolution (validator.ts line 122):
`Array.isArray(def.type) ? def.type[0] : def.type`. -/
def fieldTypeOf (defn : FieldValidationOptions) : FieldType :=
  match defn.type with
  | .inl t => t
  | .inr (t, _) => t

/-- The `isRequired` IIFE (lines 128-134): `true` for `required === true` or a
string-typed `required`; the implicit `undefined` fall-through for an absent
`required` is falsy in both use sites, hence `false` here. -/
def isRequired (defn : FieldValidationOptions) : Bool :=
  match defn.required with
  | some (.inl b) => b == true
  | some (.inr _) => true
  | none => false

/-- The `valueFilled` IIFE (lines 137-149): null/undefined are unfilled,
strings and arrays are filled iff non-empty, everything else is filled. -/
def valueFilled (value : JSVal) : Bool :=
  match value with
  | .null => false
  | .undefined => false
  | .str s => s.length != 0
  | .arr elems => elems.length != 0
  | _ => true

/-- `isEmpty` (line 179): `value === null || value === undefined`. -/
def isEmpty (value : JSVal) : Bool :=
  match value with
  | .null => true
  | .undefined => true
  | _ => false

/-- JS `typeof` on the modelled value shapes (`typeof null` is `"object"`,
and arrays are `"object"` too). -/
def jsTypeof : JSVal → String
  | .undefined => "undefined"
  | .null => "object"
  | .bool _ => "boolean"
  | .num _ => "number"
  | .str _ => "string"
  | .arr _ => "object"
  | .obj _ => "object"

/-- JS `Array.isArray`. -/
def isArray : JSVal → Bool
  | .arr _ => true
  | _ => false

/-- Whether the type-check `switch` (lines 186-329) calls `addError` for this
resolved type, origin and (non-null, non-undefined) value.

`dateTimeIsNaN` is the oracle for `isNaN(new Date(value).getTime())`: the
`date` arm's `try` block throws (and is immediately caught, adding the error)
exactly when that test is true, since `new Date(v)` itself cannot throw on
these value shapes.

The `decimal`/`double` arms run `parseFloat(value)` and the
`int`/`long`/`timestamp` arms run `parseInt(value)` inside a `try` whose
`catch` adds the error; on every modelled value shape `ToString` succeeds and
the parses return a number (possibly `NaN`) without throwing, so these arms
never add an error. -/
def typeCheckFails (dateTimeIsNaN : JSVal → Bool) (origin : DataOriginType)
    (fieldType : FieldType) (value : JSVal) : Bool :=
  match fieldType with
  | .string => !(jsTypeof value == "string")
  | .array => !(isArray value)
  | .bool =>
    match origin with
    | .query | .params =>
      match value with
      | .str s => s.length != 0 && !(["true", "false"].contains s.toLower)
      | _ => false
    | .body => !(jsTypeof value == "boolean")
  | .date => dateTimeIsNaN value
  | .decimal | .double => false
  | .int | .long | .timestamp => false
  | .object => !(jsTypeof value == "object")

/-- The required-failure message (lines 164-168): the custom string when
`required` was given as a string, else the default. -/
def requiredMessage (field : String) (defn : FieldValidationOptions) : String :=
  match defn.required with
  | some (.inr s) => s
  | _ => "The field `" ++ field ++ "` is required"

/-- `typeErrorMessage` (lines 182-184): the pair's custom message when `type`
was given as a `[type, message]` pair, else the default. -/
def typeErrorMessage (field : String) (defn : FieldValidationOptions) : String :=
  match defn.type with
  | .inr (_, msg) => msg
  | .inl t => "The value of `" ++ field ++ "` must be a valid " ++ fieldTypeName t

/-- `addError` (lines 101-114): linear scan of the accumulated errors; the
first entry with the same field name absorbs the new messages, otherwise the
error is appended at the end. -/
def addError (errors : List ValidationError) (e : ValidationError) :
    List ValidationError :=
  match errors with
  | [] => [e]
  | el :: rest =>
    if e.field = el.field then
      { el with message := el.message ++ e.message } :: rest
    else
      el :: addError rest e

/-- Resolution of a failing rule's message (lines 338-342): a static string
is used as is, a function is called (awaited) with the same three arguments
as the validator, and an absent message falls back to the default. -/
def ruleFailMessage (env : RuleEnv) (field : String)
    (defn : FieldValidationOptions) (value : JSVal) (data : Data)
    (rid : Nat) : Except JSVal String :=
  match (env rid).message with
  | none => .ok ("`" ++ field ++ "` value is not valid")
  | some (.static s) => .ok s
  | some (.fn f) => f value defn data

/-- The rules loop (lines 336-351): each rule's validator is awaited in
declaration order; a falsy result resolves the rule's message and adds the
error; a thrown exception (from the validator or the message producer)
propagates. -/
def runRules (env : RuleEnv) (origin : DataOriginType) (data : Data)
    (field : String) (defn : FieldValidationOptions) (fieldType : FieldType)
    (value : JSVal) (rids : List Nat) (errors : List ValidationError) :
    Except JSVal (List ValidationError) :=
  match rids with
  | [] => .ok errors
  | rid :: rest =>
    match (env rid).validator value defn data with
    | .error e => .error e
    | .ok ok =>
      if ok then
        runRules env origin data field defn fieldType value rest errors
      else
        match ruleFailMessage env field defn value data rid with
        | .error e => .error e
        | .ok msg =>
          runRules env origin data field defn fieldType value rest
            (addError errors { origin := origin, field := field, type := fieldType,
                               value := value, message := [msg] })

/-- One iteration of the `for (const field of Object.keys(options))` loop
(lines 117-353): the required check, the type-check `switch`, then — when
`isRequired || !isEmpty` — the rules loop. -/
def validateField (env : RuleEnv) (dateTimeIsNaN : JSVal → Bool)
    (origin : DataOriginType) (data : Data) (field : String)
    (defn : FieldValidationOptions) (errors : List ValidationError) :
    Except JSVal (List ValidationError) :=
  let fieldType := fieldTypeOf defn
  let value := jsGet data field
  let errors :=
    if isRequired defn && !valueFilled value then
      addError errors { origin := origin, field := field, type := fieldType,
                        value := value, message := [requiredMessage field defn] }
    else errors
  let errors :=
    if !isEmpty value && typeCheckFails dateTimeIsNaN origin fieldType value then
      addError errors { origin := origin, field := field, type := fieldType,
                        value := value, message := [typeErrorMessage field defn] }
    else errors
  if isRequired defn || !isEmpty value then
    runRules env origin data field defn fieldType value defn.rules errors
  else
    .ok errors

/-- The whole field loop, threading the accumulated error list. -/
def validateFields (env : RuleEnv) (dateTimeIsNaN : JSVal → Bool)
    (origin : DataOriginType) (data : Data) (options : ValidateOptions)
    (errors : List ValidationError) : Except JSVal (List ValidationError) :=
  match options with
  | [] => .ok errors
  | (field, defn) :: rest =>
    match validateField env dateTimeIsNaN origin data field defn errors with
    | .error e => .error e
    | .ok errors => validateFields env dateTimeIsNaN origin data rest errors

/-- `Validator.validate` (lines 84-363).  The TS function receives the
request and reads `data = request[origin]`; the embedding takes that bucket
directly.  The returned summary `message` joins each entry's messages with
`"; "` and then the entries with `"; "`. -/
def validate (env : RuleEnv) (dateTimeIsNaN : JSVal → Bool) (data : Data)
    (origin : DataOriginType) (options : ValidateOptions) :
    Except JSVal ValidationResult :=
  match validateFields env dateTimeIsNaN origin data options [] with
  | .error e => .error e
  | .ok errors =>
    .ok { message := String.intercalate "; "
            (errors.map fun e => String.intercalate "; " e.message),
          errors := errors }

/-!
Decomposition of one field iteration into the messages it produces, used to
state and prove the per-field characterisation of `validate`.
-/

/-- Messages the required check produces for a field: one when
`isRequired && !valueFilled`, none otherwise. -/
def requiredMessages (field : String) (defn : FieldValidationOptions)
    (value : JSVal) : List String :=
  if isRequired defn && !valueFilled value then [requiredMessage field defn]
  else []

/-- Messages the type-check `switch` produces for a field: one when the value
is non-null/non-undefined and the check fails, none otherwise. -/
def typeMessages (dateTimeIsNaN : JSVal → Bool) (origin : DataOriginType)
    (field : String) (defn : FieldValidationOptions) (value : JSVal) :
    List String :=
  if !isEmpty value && typeCheckFails dateTimeIsNaN origin (fieldTypeOf defn) value then
    [typeErrorMessage field defn]
  else []

/-- Messages the rules loop produces, in rule-declaration order; `.error e`
when a validator or message producer throws `e`. -/
def ruleMessages (env : RuleEnv) (field : String)
    (defn : FieldValidationOptions) (value : JSVal) (data : Data)
    (rids : List Nat) : Except JSVal (List String) :=
  match rids with
  | [] => .ok []
  | rid :: rest =>
    match (env rid).validator value defn data with
    | .error e => .error e
    | .ok ok =>
      if ok then
        ruleMessages env field defn value data rest
      else
        match ruleFailMessage env field defn value data rid with
        | .error e => .error e
        | .ok msg =>
          match ruleMessages env field defn value data rest with
          | .error e => .error e
          | .ok others => .ok (msg :: others)

/-- All messages one field iteration produces, in the order the code emits
them: required failure, then type mismatch, then rule failures. -/
def fieldMessages (env : RuleEnv) (dateTimeIsNaN : JSVal → Bool)
    (origin : DataOriginType) (data : Data) (field : String)
    (defn : FieldValidationOptions) : Except JSVal (List String) :=
  let value := jsGet data field
  match
    (if isRequired defn || !isEmpty value then
      ruleMessages env field defn value data defn.rules
    else .ok []) with
  | .error e => .error e
  | .ok rmsgs =>
    .ok (requiredMessages field defn value ++
         typeMessages dateTimeIsNaN origin field defn value ++ rmsgs)

/-- The error list `validate` produces on a schema with distinct keys: one
entry per field whose message list is non-empty, in schema order. -/
def expectedErrors (env : RuleEnv) (dateTimeIsNaN : JSVal → Bool)
    (origin : DataOriginType) (data : Data) (options : ValidateOptions) :
    Except JSVal (List ValidationError) :=
  match options with
  | [] => .ok []
  | (field, defn) :: rest =>
    match fieldMessages env dateTimeIsNaN origin data field defn with
    | .error e => .error e
    | .ok msgs =>
      match expectedErrors env dateTimeIsNaN origin data rest with
      | .error e => .error e
      | .ok others =>
        .ok ((if msgs = [] then []
              else [{ origin := origin, field := field, type := fieldTypeOf defn,
                      value := jsGet data field, message := msgs }]) ++ others)

/-!
Concrete rule environments and a date oracle used for concrete runs.
-/

/-- A rule environment in which every rule's validator passes. -/
def passEnv : RuleEnv := fun _ => { validator := fun _ _ _ => .ok true }

/-- A date oracle under which every date construction is valid. -/
def dateAlwaysValid : JSVal → Bool := fun _ => false

/-- One always-failing rule with a static message, at every identifier. -/
def ruleTrace : RuleEnv := fun _ =>
  { validator := fun _ _ _ => .ok false, message := some (.static "rule ran") }

/-- Rule 0 fails with the default message; every other rule fails with a
static message. -/
def failEnv : RuleEnv := fun rid =>
  if rid = 0 then { validator := fun _ _ _ => .ok false }
  else { validator := fun _ _ _ => .ok false,
         message := some (.static "second failure") }

/-- A rule whose validator returns `false` and whose message producer
throws. -/
def msgThrowEnv : RuleEnv := fun _ =>
  { validator := fun _ _ _ => .ok false,
    message := some (.fn fun _ _ _ => .error (.str "boom")) }

/-- A rule whose validator throws. -/
def throwEnv : RuleEnv := fun _ =>
  { validator := fun _ _ _ => .error (.str "kaput") }

/-!
Lemmas about `addError`.
-/

theorem addError_ne_nil (errors : List ValidationError) (e : ValidationError) :
    addError errors e ≠ [] := by
  cases errors with
  | nil => simp [addError]
  | cons el rest =>
    unfold addError
    by_cases h : e.field = el.field <;> simp [h]

/-- Two consecutive `addError` calls for the same field collapse into one
call carrying the concatenated messages; the second call's other components
are ignored because the first call's entry is found by the scan. -/
theorem addError_addError (errors : List ValidationError)
    (e₁ e₂ : ValidationError) (hf : e₂.field = e₁.field) :
    addError (addError errors e₁) e₂ =
      addError errors { e₁ with message := e₁.message ++ e₂.message } := by
  induction errors with
  | nil =>
    simp [addError, hf]
  | cons el rest ih =>
    by_cases h : e₁.field = el.field
    · have h₂ : e₂.field = el.field := hf.trans h
      simp [addError, h, h₂, List.append_assoc]
    · have h₂ : ¬e₂.field = el.field := by rw [hf]; exact h
      simp [addError, h, h₂, ih]

/-- Adding an error for a field no existing entry carries appends it. -/
theorem addError_fresh (errors : List ValidationError) (e : ValidationError)
    (h : ∀ el ∈ errors, el.field ≠ e.field) :
    addError errors e = errors ++ [e] := by
  induction errors with
  | nil => simp [addError]
  | cons el rest ih =>
    have hne : ¬e.field = el.field := fun hh => h el (by simp) hh.symm
    simp [addError, hne, ih fun x hx => h x (by simp [hx])]

/-- Adds a batch of messages for one field: no-op when the batch is empty,
otherwise a single `addError`. -/
def addFieldMessages (origin : DataOriginType) (field : String)
    (fieldType : FieldType) (value : JSVal) (errors : List ValidationError)
    (msgs : List String) : List ValidationError :=
  if msgs = [] then errors
  else addError errors { origin := origin, field := field, type := fieldType,
                         value := value, message := msgs }

theorem addFieldMessages_append (origin : DataOriginType) (field : String)
    (fieldType : FieldType) (value : JSVal) (errors : List ValidationError)
    (ms₁ ms₂ : List String) :
    addFieldMessages origin field fieldType value
      (addFieldMessages origin field fieldType value errors ms₁) ms₂ =
    addFieldMessages origin field fieldType value errors (ms₁ ++ ms₂) := by
  rcases eq_or_ne ms₁ [] with h₁ | h₁
  · simp [addFieldMessages, h₁]
  · rcases eq_or_ne ms₂ [] with h₂ | h₂
    · simp [addFieldMessages, h₂, h₁]
    · simp only [addFieldMessages, h₁, h₂, if_neg, if_false,
        List.append_eq_nil, and_false]
      exact addError_addError _ _ _ rfl

/-- The rules loop in terms of the messages it produces: the final error
list is the input list extended with the failing rules' messages for this
field, and an exception from a validator or message producer propagates. -/
theorem runRules_eq (env : RuleEnv) (origin : DataOriginType) (data : Data)
    (field : String) (defn : FieldValidationOptions) (fieldType : FieldType)
    (value : JSVal) (rids : List Nat) (errors : List ValidationError) :
    runRules env origin data field defn fieldType value rids errors =
      (ruleMessages env field defn value data rids).map
        (addFieldMessages origin field fieldType value errors) := by
  induction rids generalizing errors with
  | nil => simp [runRules, ruleMessages, addFieldMessages, Except.map]
  | cons rid rest ih =>
    cases hval : (env rid).validator value defn data with
    | error e => simp [runRules, ruleMessages, hval, Except.map]
    | ok ok =>
      cases ok with
      | true => simp [runRules, ruleMessages, hval, ih]
      | false =>
        cases hmsg : ruleFailMessage env field defn value data rid with
        | error e => simp [runRules, ruleMessages, hval, hmsg, Except.map]
        | ok m =>
          rw [runRules, ruleMessages]
          simp only [hval, hmsg, if_neg (Bool.false_ne_true)]
          rw [ih]
          cases hr : ruleMessages env field defn value data rest with
          | error e => simp [Except.map]
          | ok r =>
            have hsingle : addError errors
                ⟨origin, field, fieldType, value, [m]⟩ =
                addFieldMessages origin field fieldType value errors [m] := by
              simp [addFieldMessages]
            simp [Except.map, hsingle, addFieldMessages_append]

/-- One field iteration in terms of the messages it produces: the produced
messages are batched into (at most) one `addError` on the incoming list. -/
theorem validateField_eq (env : RuleEnv) (dt : JSVal → Bool)
    (origin : DataOriginType) (data : Data) (field : String)
    (defn : FieldValidationOptions) (errors : List ValidationError) :
    validateField env dt origin data field defn errors =
      (fieldMessages env dt origin data field defn).map
        (addFieldMessages origin field (fieldTypeOf defn) (jsGet data field)
          errors) := by
  have hreq : ∀ es : List ValidationError,
      (if isRequired defn && !valueFilled (jsGet data field) then
        addError es ⟨origin, field, fieldTypeOf defn, jsGet data field,
          [requiredMessage field defn]⟩
      else es) =
      addFieldMessages origin field (fieldTypeOf defn) (jsGet data field) es
        (requiredMessages field defn (jsGet data field)) := by
    intro es
    by_cases h : isRequired defn && !valueFilled (jsGet data field) <;>
      simp [requiredMessages, addFieldMessages, h]
  have htyp : ∀ es : List ValidationError,
      (if !isEmpty (jsGet data field) &&
          typeCheckFails dt origin (fieldTypeOf defn) (jsGet data field) then
        addError es ⟨origin, field, fieldTypeOf defn, jsGet data field,
          [typeErrorMessage field defn]⟩
      else es) =
      addFieldMessages origin field (fieldTypeOf defn) (jsGet data field) es
        (typeMessages dt origin field defn (jsGet data field)) := by
    intro es
    by_cases h : !isEmpty (jsGet data field) &&
        typeCheckFails dt origin (fieldTypeOf defn) (jsGet data field) <;>
      simp [typeMessages, addFieldMessages, h]
  unfold validateField fieldMessages
  simp only [hreq, htyp]
  by_cases hg : (isRequired defn || !isEmpty (jsGet data field)) = true
  · simp only [hg, if_true, runRules_eq]
    cases hr : ruleMessages env field defn (jsGet data field) data defn.rules with
    | error e => simp [Except.map]
    | ok r => simp [Except.map, addFieldMessages_append]
  · have h1 : isRequired defn = false := by
      cases hb : isRequired defn <;> simp [hb] at hg ⊢
    have h2 : isEmpty (jsGet data field) = true := by
      cases hb : isEmpty (jsGet data field) <;> simp [hb, h1] at hg ⊢
    simp [hg, h1, h2, requiredMessages, typeMessages, addFieldMessages,
      Except.map]

theorem addFieldMessages_nil (origin : DataOriginType) (field : String)
    (fieldType : FieldType) (value : JSVal) (errors : List ValidationError) :
    addFieldMessages origin field fieldType value errors [] = errors := by
  simp [addFieldMessages]

theorem addFieldMessages_eq_nil_iff (origin : DataOriginType) (field : String)
    (fieldType : FieldType) (value : JSVal) (errors : List ValidationError)
    (msgs : List String) :
    addFieldMessages origin field fieldType value errors msgs = [] ↔
      errors = [] ∧ msgs = [] := by
  rcases eq_or_ne msgs [] with h | h
  · simp [addFieldMessages, h]
  · simp [addFieldMessages, h, addError_ne_nil]

/-- The field loop on a schema with distinct keys, starting from an error
list none of whose entries is for a schema key, appends exactly the expected
per-field errors in schema order. -/
theorem validateFields_eq (env : RuleEnv) (dt : JSVal → Bool)
    (origin : DataOriginType) (data : Data) (options : ValidateOptions)
    (errors : List ValidationError)
    (hnd : (options.map Prod.fst).Nodup)
    (hdisj : ∀ el ∈ errors, el.field ∉ options.map Prod.fst) :
    validateFields env dt origin data options errors =
      (expectedErrors env dt origin data options).map (errors ++ ·) := by
  induction options generalizing errors with
  | nil => simp [validateFields, expectedErrors, Except.map]
  | cons fd rest ih =>
    obtain ⟨field, defn⟩ := fd
    simp only [List.map_cons, List.nodup_cons] at hnd
    obtain ⟨hnotin, hndrest⟩ := hnd
    rw [validateFields, validateField_eq]
    cases hm : fieldMessages env dt origin data field defn with
    | error e => simp [expectedErrors, hm, Except.map]
    | ok msgs =>
      have hdrest : ∀ el ∈ errors, el.field ∉ rest.map Prod.fst := by
        intro el hel
        have := hdisj el hel
        simp only [List.map_cons, List.mem_cons] at this
        exact fun hc => this (Or.inr hc)
      rcases eq_or_ne msgs [] with hnil | hnil
      · subst hnil
        simp only [Except.map, addFieldMessages_nil]
        rw [ih errors hndrest hdrest]
        rw [expectedErrors, hm]
        cases he : expectedErrors env dt origin data rest <;>
          simp [Except.map]
      · have hfresh : addFieldMessages origin field (fieldTypeOf defn)
            (jsGet data field) errors msgs =
            errors ++ [⟨origin, field, fieldTypeOf defn, jsGet data field, msgs⟩] := by
          rw [addFieldMessages, if_neg hnil]
          apply addError_fresh
          intro el hel
          have := hdisj el hel
          simp only [List.map_cons, List.mem_cons] at this
          exact fun hc => this (Or.inl hc)
        simp only [Except.map, hfresh]
        have hdrest₂ : ∀ el ∈ errors ++
            [(⟨origin, field, fieldTypeOf defn, jsGet data field, msgs⟩ :
              ValidationError)],
            el.field ∉ rest.map Prod.fst := by
          intro el hel
          rcases List.mem_append.mp hel with hel | hel
          · exact hdrest el hel
          · simp only [List.mem_singleton] at hel
            subst hel
            exact hnotin
        rw [ih _ hndrest hdrest₂]
        rw [expectedErrors, hm]
        cases he : expectedErrors env dt origin data rest <;>
          simp [Except.map, hnil]

/-- `validate` on a schema with distinct keys is the expected error list plus
the joined summary message. -/
theorem validate_eq (env : RuleEnv) (dt : JSVal → Bool) (data : Data)
    (origin : DataOriginType) (options : ValidateOptions)
    (hnd : (options.map Prod.fst).Nodup) :
    validate env dt data origin options =
      (expectedErrors env dt origin data options).map
        (fun errs =>
          ⟨String.intercalate "; "
            (errs.map fun e => String.intercalate "; " e.message), errs⟩) := by
  rw [validate, validateFields_eq env dt origin data options [] hnd (by simp)]
  cases expectedErrors env dt origin data options <;> simp [Except.map]

/-- The rules loop yields no message exactly when every declared rule's
validator returns `true` (without throwing). -/
theorem ruleMessages_ok_nil_iff (env : RuleEnv) (field : String)
    (defn : FieldValidationOptions) (value : JSVal) (data : Data)
    (rids : List Nat) :
    ruleMessages env field defn value data rids = .ok [] ↔
      ∀ rid ∈ rids, (env rid).validator value defn data = .ok true := by
  induction rids with
  | nil => simp [ruleMessages]
  | cons rid rest ih =>
    rw [ruleMessages]
    cases hval : (env rid).validator value defn data with
    | error e => simp [hval]
    | ok b =>
      cases b with
      | true => simp [hval, ih]
      | false =>
        cases hmsg : ruleFailMessage env field defn value data rid with
        | error e => simp [hval, hmsg]
        | ok m =>
          cases hrest : ruleMessages env field defn value data rest <;>
            simp [hval, hmsg, hrest]

theorem isEmpty_not_valueFilled (value : JSVal) (h : isEmpty value = true) :
    valueFilled value = false := by
  cases value <;> simp [isEmpty, valueFilled] at h ⊢

/-- One field iteration yields no message exactly when the required check,
the type check (when the value is present) and every rule (when the rules
run) pass. -/
theorem fieldMessages_ok_nil_iff (env : RuleEnv) (dt : JSVal → Bool)
    (origin : DataOriginType) (data : Data) (field : String)
    (defn : FieldValidationOptions) :
    fieldMessages env dt origin data field defn = .ok [] ↔
      ((isRequired defn = true → valueFilled (jsGet data field) = true) ∧
       (isEmpty (jsGet data field) = false →
         typeCheckFails dt origin (fieldTypeOf defn) (jsGet data field) = false ∧
         ∀ rid ∈ defn.rules,
           (env rid).validator (jsGet data field) defn data = .ok true)) := by
  rw [fieldMessages]
  by_cases hg : (isRequired defn || !isEmpty (jsGet data field)) = true
  · cases hemp : isEmpty (jsGet data field) with
    | true =>
      have hreq : isRequired defn = true := by
        rcases Bool.or_eq_true_iff.mp hg with h | h
        · exact h
        · rw [hemp] at h
          simp at h
      have hfill : valueFilled (jsGet data field) = false :=
        isEmpty_not_valueFilled _ hemp
      rw [if_pos (show (isRequired defn || !true) = true by rw [hreq]; rfl)]
      cases hr : ruleMessages env field defn (jsGet data field) data defn.rules with
      | error e => simp [hreq, hfill]
      | ok rr => simp [requiredMessages, hreq, hfill]
    | false =>
      rw [if_pos (show (isRequired defn || !false) = true by simp)]
      cases hr : ruleMessages env field defn (jsGet data field) data defn.rules with
      | error e =>
        simp only [hemp]
        constructor
        · intro h
          cases h
        · rintro ⟨-, h2⟩
          have := (ruleMessages_ok_nil_iff env field defn
            (jsGet data field) data defn.rules).mpr (h2 (by simp)).2
          rw [hr] at this
          cases this
      | ok rr =>
        have hrules : rr = [] ↔ ∀ rid ∈ defn.rules,
            (env rid).validator (jsGet data field) defn data = .ok true := by
          rw [← ruleMessages_ok_nil_iff env field defn (jsGet data field) data,
            hr]
          simp
        simp only [hemp, Except.ok.injEq, List.append_eq_nil]
        rw [requiredMessages, typeMessages]
        constructor
        · intro h
          obtain ⟨⟨h1, h2⟩, h3⟩ := h
          refine ⟨?_, fun hd => ⟨?_, hrules.mp h3⟩⟩
          · intro hreq
            by_contra hfill
            rw [Bool.not_eq_true] at hfill
            rw [hreq, hfill] at h1
            simp at h1
          · by_contra htcf
            rw [Bool.not_eq_false] at htcf
            rw [hemp, htcf] at h2
            simp at h2
        · rintro ⟨h1, h2⟩
          obtain ⟨htcf, hrl⟩ := h2 (by simp)
          refine ⟨⟨?_, ?_⟩, hrules.mpr hrl⟩
          · rw [if_neg]
            intro hc
            rw [Bool.and_eq_true] at hc
            have := h1 hc.1
            rw [this] at hc
            simp at hc
          · rw [if_neg]
            intro hc
            rw [Bool.and_eq_true] at hc
            rw [htcf] at hc
            simp at hc
  · have h1 : isRequired defn = false := by
      cases hb : isRequired defn
      · rfl
      · rw [hb] at hg
        simp at hg
    have h2 : isEmpty (jsGet data field) = true := by
      cases hb : isEmpty (jsGet data field)
      · rw [hb, h1] at hg
        simp at hg
      · rfl
    rw [if_neg hg]
    simp [requiredMessages, typeMessages, h1, h2]

/-- A successful field-loop run ends with no errors exactly when it started
with none and no field produced a message. -/
theorem validateFields_ok_nil_iff (env : RuleEnv) (dt : JSVal → Bool)
    (origin : DataOriginType) (data : Data) (options : ValidateOptions)
    (errors res : List ValidationError)
    (h : validateFields env dt origin data options errors = .ok res) :
    res = [] ↔ (errors = [] ∧ ∀ fd ∈ options,
      fieldMessages env dt origin data fd.1 fd.2 = .ok []) := by
  induction options generalizing errors with
  | nil =>
    rw [validateFields] at h
    injection h with h
    subst h
    simp
  | cons fd rest ih =>
    obtain ⟨field, defn⟩ := fd
    rw [validateFields, validateField_eq] at h
    cases hm : fieldMessages env dt origin data field defn with
    | error e =>
      rw [hm] at h
      cases h
    | ok msgs =>
      rw [hm] at h
      have hrec := ih (addFieldMessages origin field (fieldTypeOf defn)
        (jsGet data field) errors msgs) h
      rw [hrec, addFieldMessages_eq_nil_iff]
      constructor
      · rintro ⟨⟨he, hm0⟩, hrest⟩
        subst hm0
        exact ⟨he, by
          intro fd hfd
          rcases List.mem_cons.mp hfd with hfd | hfd
          · subst hfd
            rw [hm]
          · exact hrest fd hfd⟩
      · rintro ⟨he, hall⟩
        have hhead := hall (field, defn) (List.mem_cons_self _ _)
        rw [hm] at hhead
        injection hhead with hhead
        exact ⟨⟨he, hhead⟩, fun fd hfd => hall fd (List.mem_cons_of_mem _ hfd)⟩

theorem string_length_eq_zero_iff (s : String) : s.length = 0 ↔ s = "" := by
  constructor
  · intro h
    cases s with
    | mk data =>
      cases data with
      | nil => rfl
      | cons a l => simp [String.length] at h
  · intro h
    subst h
    rfl

/-- The `bool` arm for `query`/`params` origins passes exactly on the empty
string and on case-insensitive `"true"`/`"false"` (for string values). -/
theorem bool_tcf_query_params (dt : JSVal → Bool) (origin : DataOriginType)
    (horig : origin = .query ∨ origin = .params) (s : String) :
    typeCheckFails dt origin .bool (.str s) = false ↔
      s = "" ∨ s.toLower = "true" ∨ s.toLower = "false" := by
  have harm : typeCheckFails dt origin .bool (.str s) =
      (s.length != 0 && !(["true", "false"].contains s.toLower)) := by
    rcases horig with h | h <;> subst h <;> rfl
  rw [harm]
  rcases eq_or_ne s "" with hs | hs
  · subst hs
    simp
  · have hlen : (s.length != 0) = true := by
      rw [bne_iff_ne]
      exact fun hc => hs ((string_length_eq_zero_iff s).mp hc)
    rw [hlen, Bool.true_and]
    cases hc : (["true", "false"].contains s.toLower) with
    | true =>
      have hmem : s.toLower ∈ ["true", "false"] := List.elem_iff.mp hc
      simp only [List.mem_cons, List.mem_singleton, List.not_mem_nil,
        or_false] at hmem
      simp [hs, hmem]
    | false =>
      have hmem : s.toLower ∉ ["true", "false"] := by
        intro hm
        have hc₂ : (["true", "false"].contains s.toLower) = true :=
          List.elem_iff.mpr hm
        rw [hc] at hc₂
        cases hc₂
      simp only [List.mem_cons, List.mem_singleton, List.not_mem_nil,
        or_false, not_or] at hmem
      simp [hs, hmem.1, hmem.2]

/-- The `bool` arm for `query`/`params` origins fails exactly on non-empty
string values whose lowercasing is neither `"true"` nor `"false"`. -/
theorem bool_tcf_query_params_true (dt : JSVal → Bool)
    (origin : DataOriginType) (horig : origin = .query ∨ origin = .params)
    (v : JSVal) :
    typeCheckFails dt origin .bool v = true ↔
      ∃ s, v = .str s ∧ s ≠ "" ∧ s.toLower ≠ "true" ∧ s.toLower ≠ "false" := by
  cases v with
  | str s =>
    have hiff := bool_tcf_query_params dt origin horig s
    constructor
    · intro h
      refine ⟨s, rfl, ?_⟩
      by_contra hcon
      rw [not_and_or, not_and_or] at hcon
      have : s = "" ∨ s.toLower = "true" ∨ s.toLower = "false" := by
        rcases hcon with hc | hc | hc
        · exact Or.inl (not_not.mp hc)
        · exact Or.inr (Or.inl (not_not.mp hc))
        · exact Or.inr (Or.inr (not_not.mp hc))
      rw [hiff.mpr this] at h
      cases h
    · rintro ⟨s', hs, h1, h2, h3⟩
      injection hs with hs
      subst hs
      cases h : typeCheckFails dt origin .bool (.str s)
      · rcases hiff.mp h with hc | hc | hc
        · exact absurd hc h1
        · exact absurd hc h2
        · exact absurd hc h3
      · rfl
  | undefined =>
    have harm : typeCheckFails dt origin .bool .undefined = false := by
      rcases horig with h | h <;> subst h <;> rfl
    simp [harm]
  | null =>
    have harm : typeCheckFails dt origin .bool .null = false := by
      rcases horig with h | h <;> subst h <;> rfl
    simp [harm]
  | bool b =>
    have harm : typeCheckFails dt origin .bool (.bool b) = false := by
      rcases horig with h | h <;> subst h <;> rfl
    simp [harm]
  | num n =>
    have harm : typeCheckFails dt origin .bool (.num n) = false := by
      rcases horig with h | h <;> subst h <;> rfl
    simp [harm]
  | arr elems =>
    have harm : typeCheckFails dt origin .bool (.arr elems) = false := by
      rcases horig with h | h <;> subst h <;> rfl
    simp [harm]
  | obj props =>
    have harm : typeCheckFails dt origin .bool (.obj props) = false := by
      rcases horig with h | h <;> subst h <;> rfl
    simp [harm]

/-- The `bool` arm for the `body` origin passes exactly on native booleans. -/
theorem bool_tcf_body (dt : JSVal → Bool) (v : JSVal) :
    typeCheckFails dt .body .bool v = false ↔ ∃ b, v = .bool b := by
  cases v <;> simp [typeCheckFails, jsTypeof]

/-!
Claim theorems.
-/

/-- Claim C1: a run of `validate` that returns a result returns an empty
`errors` list iff every required field is filled and every present field
passes its declared type check and every one of its declared rules. -/
theorem validate_errors_empty_iff (env : RuleEnv) (dt : JSVal → Bool)
    (data : Data) (origin : DataOriginType) (options : ValidateOptions)
    (r : ValidationResult) (h : validate env dt data origin options = .ok r) :
    r.errors = [] ↔ ∀ fd ∈ options,
      (isRequired fd.2 = true → valueFilled (jsGet data fd.1) = true) ∧
      (isEmpty (jsGet data fd.1) = false →
        typeCheckFails dt origin (fieldTypeOf fd.2) (jsGet data fd.1) = false ∧
        ∀ rid ∈ fd.2.rules,
          (env rid).validator (jsGet data fd.1) fd.2 data = .ok true) := by
  rw [validate] at h
  cases hv : validateFields env dt origin data options [] with
  | error e =>
    rw [hv] at h
    cases h
  | ok errs =>
    rw [hv] at h
    injection h with h
    have herr : r.errors = errs := by rw [← h]
    rw [herr, validateFields_ok_nil_iff env dt origin data options [] errs hv]
    simp only [true_and]
    constructor
    · intro hall fd hfd
      exact (fieldMessages_ok_nil_iff env dt origin data fd.1 fd.2).mp
        (hall fd hfd)
    · intro hall fd hfd
      exact (fieldMessages_ok_nil_iff env dt origin data fd.1 fd.2).mpr
        (hall fd hfd)

/-- Witness for C1: a concrete conforming run. -/
theorem validate_errors_empty_iff_witness :
    (ValidationResult.mk "" []).errors = [] ↔
      ∀ fd ∈ ([("a", ⟨.inl .string, none, []⟩)] : ValidateOptions),
        (isRequired fd.2 = true →
          valueFilled (jsGet [("a", .str "x")] fd.1) = true) ∧
        (isEmpty (jsGet [("a", .str "x")] fd.1) = false →
          typeCheckFails dateAlwaysValid .body (fieldTypeOf fd.2)
            (jsGet [("a", .str "x")] fd.1) = false ∧
          ∀ rid ∈ fd.2.rules,
            (passEnv rid).validator (jsGet [("a", .str "x")] fd.1) fd.2
              [("a", .str "x")] = .ok true) :=
  validate_errors_empty_iff passEnv dateAlwaysValid [("a", .str "x")] .body
    [("a", ⟨.inl .string, none, []⟩)] ⟨"", []⟩ rfl

/-- Claim C3: the numeric type checks (`int`, `double`, `decimal`, `long`,
`timestamp`) record no error for the non-numeric string `"abc"` — the parse
yields a NaN sentinel without throwing, and only a thrown exception triggers
the error. -/
theorem numeric_parse_quirk_no_error (env : RuleEnv) (dt : JSVal → Bool) :
    validate env dt [("age", .str "abc")] .body
      [("age", ⟨.inl .int, none, []⟩)] = .ok ⟨"", []⟩ ∧
    validate env dt [("age", .str "abc")] .body
      [("age", ⟨.inl .double, none, []⟩)] = .ok ⟨"", []⟩ ∧
    validate env dt [("age", .str "abc")] .body
      [("age", ⟨.inl .decimal, none, []⟩)] = .ok ⟨"", []⟩ ∧
    validate env dt [("age", .str "abc")] .body
      [("age", ⟨.inl .long, none, []⟩)] = .ok ⟨"", []⟩ ∧
    validate env dt [("age", .str "abc")] .body
      [("age", ⟨.inl .timestamp, none, []⟩)] = .ok ⟨"", []⟩ :=
  ⟨rfl, rfl, rfl, rfl, rfl⟩

/-- Counterexample to claim C4: an optional field whose value is the empty
string gets a type-mismatch error recorded and its rules executed (the rule's
message appears), contradicting the claim that empty-string optional fields
produce no type error and skip rules. -/
theorem optional_empty_string_not_skipped :
    validate ruleTrace dateAlwaysValid [("f", .str "")] .body
      [("f", ⟨.inl .array, none, [0]⟩)] =
    .ok ⟨"The value of `f` must be a valid array; rule ran",
      [⟨.body, "f", .array, .str "",
        ["The value of `f` must be a valid array", "rule ran"]⟩]⟩ := rfl

/-- Claim C4 (amended): an optional field whose value is null or undefined
gets no required-error, no type-error, and its rules are never run (the run
is a no-op for every rule environment, even a throwing one); an optional
field whose value is present (e.g. the empty string or empty array) gets no
required-error, but the type-check switch still runs and the rules loop is
executed over the accumulated type error. -/
theorem optional_absent_vs_empty_value (env : RuleEnv) (dt : JSVal → Bool)
    (origin : DataOriginType) (data : Data) (field : String)
    (defn : FieldValidationOptions) (errors : List ValidationError)
    (hreq : isRequired defn = false) :
    (isEmpty (jsGet data field) = true →
      validateField env dt origin data field defn errors = .ok errors) ∧
    (isEmpty (jsGet data field) = false →
      requiredMessages field defn (jsGet data field) = [] ∧
      validateField env dt origin data field defn errors =
        runRules env origin data field defn (fieldTypeOf defn)
          (jsGet data field) defn.rules
          (if typeCheckFails dt origin (fieldTypeOf defn) (jsGet data field) then
            addError errors ⟨origin, field, fieldTypeOf defn, jsGet data field,
              [typeErrorMessage field defn]⟩
          else errors)) := by
  constructor
  · intro hemp
    rw [validateField]
    simp [hreq, hemp]
  · intro hemp
    refine ⟨by simp [requiredMessages, hreq], ?_⟩
    rw [validateField]
    simp [hreq, hemp]

/-- Witness for the amended C4 at an absent optional field. -/
theorem optional_absent_vs_empty_value_witness :
    (isEmpty (jsGet [] "x") = true →
      validateField throwEnv dateAlwaysValid .body [] "x"
        ⟨.inl .string, none, [0]⟩ [] = .ok []) ∧
    (isEmpty (jsGet [] "x") = false →
      requiredMessages "x" ⟨.inl .string, none, [0]⟩ (jsGet [] "x") = [] ∧
      validateField throwEnv dateAlwaysValid .body [] "x"
        ⟨.inl .string, none, [0]⟩ [] =
        runRules throwEnv .body [] "x" ⟨.inl .string, none, [0]⟩
          (fieldTypeOf ⟨.inl .string, none, [0]⟩) (jsGet [] "x")
          (FieldValidationOptions.rules ⟨.inl .string, none, [0]⟩)
          (if typeCheckFails dateAlwaysValid .body
              (fieldTypeOf ⟨.inl .string, none, [0]⟩) (jsGet [] "x") then
            addError [] ⟨.body, "x", fieldTypeOf ⟨.inl .string, none, [0]⟩,
              jsGet [] "x", [typeErrorMessage "x" ⟨.inl .string, none, [0]⟩]⟩
          else [])) :=
  optional_absent_vs_empty_value throwEnv dateAlwaysValid .body [] "x"
    ⟨.inl .string, none, [0]⟩ [] rfl

/-- Counterexample to claim C5: a required field whose value is the empty
string records both the required-failure message and a type-mismatch message
in the same run. -/
theorem required_and_type_error_coexist :
    validate passEnv dateAlwaysValid [("g", .str "")] .body
      [("g", ⟨.inl .object, some (.inl true), []⟩)] =
    .ok ⟨"The field `g` is required; The value of `g` must be a valid object",
      [⟨.body, "g", .object, .str "",
        ["The field `g` is required",
         "The value of `g` must be a valid object"]⟩]⟩ := rfl

/-- Claim C5 (amended): a required-failure and a type-mismatch message are
never both recorded when the field's value is null or undefined (the type
check is skipped there), but both are recorded when a required field's value
is present yet unfilled (empty string / empty array) and fails the type
check; and a type failure together with several rule failures in one entry
is possible. -/
theorem required_type_cooccurrence_boundary :
    (∀ (dt : JSVal → Bool) (origin : DataOriginType) (field : String)
       (defn : FieldValidationOptions) (value : JSVal),
       isEmpty value = true → typeMessages dt origin field defn value = []) ∧
    (validate passEnv dateAlwaysValid [("h", .str "")] .body
       [("h", ⟨.inl .array, some (.inr "h wanted"), []⟩)] =
     .ok ⟨"h wanted; The value of `h` must be a valid array",
       [⟨.body, "h", .array, .str "",
         ["h wanted", "The value of `h` must be a valid array"]⟩]⟩) ∧
    (validate failEnv dateAlwaysValid [("k", .num 7)] .body
       [("k", ⟨.inl .string, none, [0, 1]⟩)] =
     .ok ⟨"The value of `k` must be a valid string; `k` value is not valid; second failure",
       [⟨.body, "k", .string, .num 7,
         ["The value of `k` must be a valid string", "`k` value is not valid",
          "second failure"]⟩]⟩) := by
  refine ⟨?_, rfl, rfl⟩
  intro dt origin field defn value hemp
  simp [typeMessages, hemp]

/-- Witness for the amended C5 at a null value. -/
theorem required_type_cooccurrence_boundary_witness :
    typeMessages dateAlwaysValid .body "w"
      ⟨.inl .string, some (.inl true), []⟩ .null = [] :=
  required_type_cooccurrence_boundary.1 dateAlwaysValid .body "w"
    ⟨.inl .string, some (.inl true), []⟩ .null rfl

/-- Claim C9: the scenario `{ name: { type: "string", required: true } }`
against `{}` yields exactly one error entry for `name` with the default
required message; in general, a required unfilled field emits the custom
required string when `required` was given as a string, else the default
message, and the emitted message never depends on the declared type. -/
theorem required_check_and_message :
    (∀ (env : RuleEnv) (dt : JSVal → Bool) (origin : DataOriginType),
      validate env dt [] origin
        [("name", ⟨.inl .string, some (.inl true), []⟩)] =
      .ok ⟨"The field `name` is required",
        [⟨origin, "name", .string, .undefined,
          ["The field `name` is required"]⟩]⟩) ∧
    (∀ (field : String) (defn : FieldValidationOptions) (value : JSVal),
      isRequired defn = true → valueFilled value = false →
      requiredMessages field defn value = [requiredMessage field defn]) ∧
    (∀ (field : String) (defn : FieldValidationOptions)
       (t : FieldType ⊕ (FieldType × String)),
      requiredMessage field { defn with type := t } =
        requiredMessage field defn) ∧
    (∀ (field : String) (defn : FieldValidationOptions) (s : String),
      defn.required = some (.inr s) → requiredMessage field defn = s) ∧
    (∀ (field : String) (defn : FieldValidationOptions) (b : Bool),
      defn.required = some (.inl b) →
      requiredMessage field defn = "The field `" ++ field ++ "` is required") := by
  refine ⟨?_, ?_, ?_, ?_, ?_⟩
  · intro env dt origin
    rfl
  · intro field defn value hreq hfill
    simp [requiredMessages, hreq, hfill]
  · intro field defn t
    rfl
  · intro field defn s hs
    simp [requiredMessage, hs]
  · intro field defn b hb
    simp [requiredMessage, hb]

/-- Witness for C9's conditional parts at a concrete required miss. -/
theorem required_check_and_message_witness :
    requiredMessages "name" ⟨.inl .string, some (.inl true), []⟩ .undefined =
      [requiredMessage "name" ⟨.inl .string, some (.inl true), []⟩] :=
  required_check_and_message.2.1 "name"
    ⟨.inl .string, some (.inl true), []⟩ .undefined rfl rfl

/-- Specialisation of the C1 equivalence to a one-field, optional,
rule-free schema: the only possible error source is the type check. -/
theorem validate_single_optional_errors_empty (env : RuleEnv)
    (dt : JSVal → Bool) (f : String) (v : JSVal) (origin : DataOriginType)
    (t : FieldType) (r : ValidationResult)
    (h : validate env dt [(f, v)] origin [(f, ⟨.inl t, none, []⟩)] = .ok r) :
    r.errors = [] ↔
      (isEmpty v = false → typeCheckFails dt origin t v = false) := by
  rw [validate_errors_empty_iff env dt [(f, v)] origin
    [(f, ⟨.inl t, none, []⟩)] r h]
  have hget : jsGet [(f, v)] f = v := by simp [jsGet]
  constructor
  · intro hall hemp
    have hone := hall (f, ⟨.inl t, none, []⟩) (by simp)
    dsimp only at hone
    rw [hget] at hone
    exact (hone.2 hemp).1
  · intro htcf fd hfd
    simp only [List.mem_singleton] at hfd
    subst hfd
    dsimp only
    rw [hget]
    constructor
    · intro hr
      cases hr
    · intro hemp
      refine ⟨htcf hemp, ?_⟩
      intro rid hrid
      cases hrid

/-- Claim C6: for a declared `bool` field, under `query`/`params` origins a
string value passes exactly when it is empty or case-insensitively
`"true"`/`"false"`, and under the `body` origin a present value passes
exactly when it is a native boolean. -/
theorem bool_type_check_by_origin :
    (∀ (env : RuleEnv) (dt : JSVal → Bool) (f s : String)
       (origin : DataOriginType) (r : ValidationResult),
       (origin = .query ∨ origin = .params) →
       validate env dt [(f, .str s)] origin
         [(f, ⟨.inl .bool, none, []⟩)] = .ok r →
       (r.errors = [] ↔
         s = "" ∨ s.toLower = "true" ∨ s.toLower = "false")) ∧
    (∀ (env : RuleEnv) (dt : JSVal → Bool) (f : String) (v : JSVal)
       (r : ValidationResult), isEmpty v = false →
       validate env dt [(f, v)] .body [(f, ⟨.inl .bool, none, []⟩)] = .ok r →
       (r.errors = [] ↔ ∃ b, v = .bool b)) := by
  constructor
  · intro env dt f s origin r horig h
    rw [validate_single_optional_errors_empty env dt f (.str s) origin .bool
      r h, ← bool_tcf_query_params dt origin horig s]
    constructor
    · intro hi
      exact hi rfl
    · intro htcf hemp
      exact htcf
  · intro env dt f v r hemp h
    rw [validate_single_optional_errors_empty env dt f v .body .bool r h,
      ← bool_tcf_body dt v]
    constructor
    · intro hi
      exact hi hemp
    · intro htcf hemp₂
      exact htcf

/-- Witness for C6 at the empty string under `query`. -/
theorem bool_type_check_by_origin_witness :
    (ValidationResult.mk "" []).errors = [] ↔
      "" = "" ∨ "".toLower = "true" ∨ "".toLower = "false" :=
  bool_type_check_by_origin.1 passEnv dateAlwaysValid "b" "" .query
    ⟨"", []⟩ (Or.inl rfl) rfl

/-- Claim C10: under `query`/`params` origins the `bool` type check fires
exactly on non-empty string values whose lowercasing is neither `"true"` nor
`"false"`; in particular a non-string or empty-string value never yields a
type error for a `bool` field in these origins. -/
theorem bool_query_params_nonstring_no_error :
    (∀ (dt : JSVal → Bool) (origin : DataOriginType) (v : JSVal),
       (origin = .query ∨ origin = .params) →
       (typeCheckFails dt origin .bool v = true ↔
         ∃ s, v = .str s ∧ s ≠ "" ∧ s.toLower ≠ "true" ∧
           s.toLower ≠ "false")) ∧
    (∀ (env : RuleEnv) (dt : JSVal → Bool) (f : String) (v : JSVal)
       (origin : DataOriginType) (r : ValidationResult),
       (origin = .query ∨ origin = .params) →
       validate env dt [(f, v)] origin
         [(f, ⟨.inl .bool, none, []⟩)] = .ok r →
       ((∀ s, v ≠ .str s) ∨ v = .str "") → r.errors = []) := by
  constructor
  · exact fun dt origin v horig => bool_tcf_query_params_true dt origin horig v
  · intro env dt f v origin r horig h hvs
    rw [validate_single_optional_errors_empty env dt f v origin .bool r h]
    intro hemp
    cases hb : typeCheckFails dt origin .bool v with
    | false => rfl
    | true =>
      exfalso
      obtain ⟨s, hvsz, hne, -, -⟩ :=
        (bool_tcf_query_params_true dt origin horig v).mp hb
      rcases hvs with hvs | hvs
      · exact hvs s hvsz
      · rw [hvs] at hvsz
        injection hvsz with hvsz
        exact hne hvsz.symm

/-- Witness for C10 at a native boolean under `query`. -/
theorem bool_query_params_nonstring_no_error_witness :
    (ValidationResult.mk "" []).errors = [] :=
  bool_query_params_nonstring_no_error.2 passEnv dateAlwaysValid "q"
    (.bool true) .query ⟨"", []⟩ (Or.inl rfl) rfl
    (Or.inl fun _ hs => JSVal.noConfusion hs)

/-- An exception escaping the rules loop comes from some listed rule: its
validator threw, or its validator returned `false` and its message producer
threw. -/
theorem ruleMessages_error (env : RuleEnv) (field : String)
    (defn : FieldValidationOptions) (value : JSVal) (data : Data)
    (rids : List Nat) (e : JSVal)
    (h : ruleMessages env field defn value data rids = .error e) :
    ∃ rid ∈ rids, (env rid).validator value defn data = .error e ∨
      ((env rid).validator value defn data = .ok false ∧
       ruleFailMessage env field defn value data rid = .error e) := by
  induction rids with
  | nil =>
    rw [ruleMessages] at h
    cases h
  | cons rid rest ih =>
    rw [ruleMessages] at h
    cases hval : (env rid).validator value defn data with
    | error e₂ =>
      rw [hval] at h
      have h₂ : (Except.error e₂ : Except JSVal (List String)) = .error e := h
      injection h₂ with h₂
      subst h₂
      exact ⟨rid, by simp, Or.inl hval⟩
    | ok b =>
      rw [hval] at h
      cases b with
      | true =>
        have h₂ : ruleMessages env field defn value data rest = .error e := h
        obtain ⟨rid₂, hmem, hcase⟩ := ih h₂
        exact ⟨rid₂, by simp [hmem], hcase⟩
      | false =>
        cases hmsg : ruleFailMessage env field defn value data rid with
        | error e₂ =>
          rw [hmsg] at h
          have h₂ : (Except.error e₂ : Except JSVal (List String)) =
              .error e := h
          injection h₂ with h₂
          subst h₂
          exact ⟨rid, by simp, Or.inr ⟨hval, hmsg⟩⟩
        | ok m =>
          rw [hmsg] at h
          cases hrest : ruleMessages env field defn value data rest with
          | error e₂ =>
            rw [hrest] at h
            have h₂ : (Except.error e₂ : Except JSVal (List String)) =
                .error e := h
            injection h₂ with h₂
            subst h₂
            obtain ⟨rid₂, hmem, hcase⟩ := ih hrest
            exact ⟨rid₂, by simp [hmem], hcase⟩
          | ok others =>
            rw [hrest] at h
            have h₂ : (Except.ok (m :: others) :
                Except JSVal (List String)) = .error e := h
            cases h₂

/-- An exception escaping one field iteration comes from its rules loop. -/
theorem fieldMessages_error (env : RuleEnv) (dt : JSVal → Bool)
    (origin : DataOriginType) (data : Data) (field : String)
    (defn : FieldValidationOptions) (e : JSVal)
    (h : fieldMessages env dt origin data field defn = .error e) :
    ruleMessages env field defn (jsGet data field) data defn.rules =
      .error e := by
  rw [fieldMessages] at h
  by_cases hg : (isRequired defn || !isEmpty (jsGet data field)) = true
  · rw [if_pos hg] at h
    cases hr : ruleMessages env field defn (jsGet data field) data
        defn.rules with
    | error e₂ =>
      rw [hr] at h
      exact h
    | ok r =>
      rw [hr] at h
      have h₂ : (Except.ok (requiredMessages field defn (jsGet data field) ++
          typeMessages dt origin field defn (jsGet data field) ++ r) :
          Except JSVal (List String)) = .error e := h
      cases h₂
  · rw [if_neg hg] at h
    have h₂ : (Except.ok (requiredMessages field defn (jsGet data field) ++
        typeMessages dt origin field defn (jsGet data field) ++ []) :
        Except JSVal (List String)) = .error e := h
    cases h₂

/-- An exception escaping the field loop comes from some schema field's
rules. -/
theorem validateFields_error (env : RuleEnv) (dt : JSVal → Bool)
    (origin : DataOriginType) (data : Data) (options : ValidateOptions)
    (errors : List ValidationError) (e : JSVal)
    (h : validateFields env dt origin data options errors = .error e) :
    ∃ fd ∈ options, ∃ rid ∈ fd.2.rules,
      (env rid).validator (jsGet data fd.1) fd.2 data = .error e ∨
      ((env rid).validator (jsGet data fd.1) fd.2 data = .ok false ∧
       ruleFailMessage env fd.1 fd.2 (jsGet data fd.1) data rid =
         .error e) := by
  induction options generalizing errors with
  | nil =>
    rw [validateFields] at h
    cases h
  | cons fd rest ih =>
    obtain ⟨field, defn⟩ := fd
    rw [validateFields] at h
    cases hvf : validateField env dt origin data field defn errors with
    | error e₂ =>
      rw [hvf] at h
      have h₂ : (Except.error e₂ :
          Except JSVal (List ValidationError)) = .error e := h
      injection h₂ with h₂
      subst h₂
      rw [validateField_eq] at hvf
      cases hm : fieldMessages env dt origin data field defn with
      | error e₃ =>
        rw [hm] at hvf
        have h₃ : (Except.error e₃ :
            Except JSVal (List ValidationError)) = .error e₂ := hvf
        injection h₃ with h₃
        subst h₃
        have hrm := fieldMessages_error env dt origin data field defn _ hm
        obtain ⟨rid, hmem, hcase⟩ :=
          ruleMessages_error env field defn (jsGet data field) data
            defn.rules _ hrm
        exact ⟨(field, defn), by simp, rid, hmem, hcase⟩
      | ok msgs =>
        rw [hm] at hvf
        have h₃ : (Except.ok (addFieldMessages origin field (fieldTypeOf defn)
            (jsGet data field) errors msgs) :
            Except JSVal (List ValidationError)) = .error e₂ := hvf
        cases h₃
    | ok errors₂ =>
      rw [hvf] at h
      obtain ⟨fd₂, hmem, hrest⟩ := ih errors₂ h
      exact ⟨fd₂, by simp [hmem], hrest⟩

/-- Claim C8 (amended): `validate` raises only exceptions originating in a
rule: when it returns `.error e`, some declared rule of some schema field
either had its validator throw `e`, or had its validator return `false` and
its message producer throw `e`.  In particular the engine never raises when
rule validators and message producers do not throw; all internal exceptions
of the date/number coercions are caught and recorded as validation errors. -/
theorem validate_error_from_rules (env : RuleEnv) (dt : JSVal → Bool)
    (data : Data) (origin : DataOriginType) (options : ValidateOptions)
    (e : JSVal) (h : validate env dt data origin options = .error e) :
    ∃ fd ∈ options, ∃ rid ∈ fd.2.rules,
      (env rid).validator (jsGet data fd.1) fd.2 data = .error e ∨
      ((env rid).validator (jsGet data fd.1) fd.2 data = .ok false ∧
       ruleFailMessage env fd.1 fd.2 (jsGet data fd.1) data rid =
         .error e) := by
  rw [validate] at h
  cases hv : validateFields env dt origin data options [] with
  | error e₂ =>
    rw [hv] at h
    injection h with h
    subst h
    exact validateFields_error env dt origin data options [] _ hv
  | ok errs =>
    rw [hv] at h
    cases h

/-- Witness for the amended C8: a throwing rule validator reaches the
caller. -/
theorem validate_error_from_rules_witness :
    ∃ fd ∈ ([("t", ⟨.inl .string, none, [0]⟩)] : ValidateOptions),
      ∃ rid ∈ fd.2.rules,
      (throwEnv rid).validator (jsGet [("t", .str "v")] fd.1) fd.2
        [("t", .str "v")] = .error (.str "kaput") ∨
      ((throwEnv rid).validator (jsGet [("t", .str "v")] fd.1) fd.2
        [("t", .str "v")] = .ok false ∧
       ruleFailMessage throwEnv fd.1 fd.2 (jsGet [("t", .str "v")] fd.1)
         [("t", .str "v")] rid = .error (.str "kaput")) :=
  validate_error_from_rules throwEnv dateAlwaysValid [("t", .str "v")] .body
    [("t", ⟨.inl .string, none, [0]⟩)] (.str "kaput") rfl

/-- Counterexample to C8 as stated: an exception can propagate to the caller
even though every rule predicate returns without throwing — the rule's
message producer throws after the validator merely returned `false`. -/
theorem message_producer_throw_propagates :
    validate msgThrowEnv dateAlwaysValid [("m", .str "v")] .body
      [("m", ⟨.inl .string, none, [0]⟩)] = .error (.str "boom") ∧
    (∀ (value : JSVal) (defn : FieldValidationOptions) (data : Data)
       (rid : Nat),
      (msgThrowEnv rid).validator value defn data = .ok false) :=
  ⟨rfl, fun _ _ _ _ => rfl⟩

/-- Claim C7: rules are not short-circuited — the message list of a
concatenated rule list is the message list of the first part followed by that
of the second, so every listed rule runs in declaration order regardless of
earlier failures; a falsy validator result contributes exactly its one
resolved message; and a single field accumulates several rule-failure
messages in one run. -/
theorem rules_not_short_circuited :
    (∀ (env : RuleEnv) (field : String) (defn : FieldValidationOptions)
       (value : JSVal) (data : Data) (rids₁ rids₂ : List Nat),
       ruleMessages env field defn value data (rids₁ ++ rids₂) =
         match ruleMessages env field defn value data rids₁ with
         | Except.error e => Except.error e
         | Except.ok ms₁ =>
           match ruleMessages env field defn value data rids₂ with
           | Except.error e => Except.error e
           | Except.ok ms₂ => Except.ok (ms₁ ++ ms₂)) ∧
    (∀ (env : RuleEnv) (field : String) (defn : FieldValidationOptions)
       (value : JSVal) (data : Data) (rid : Nat) (m : String),
       (env rid).validator value defn data = .ok false →
       ruleFailMessage env field defn value data rid = .ok m →
       ruleMessages env field defn value data [rid] = .ok [m]) ∧
    (validate failEnv dateAlwaysValid [("k2", .str "v")] .body
       [("k2", ⟨.inl .string, none, [0, 1]⟩)] =
     .ok ⟨"`k2` value is not valid; second failure",
       [⟨.body, "k2", .string, .str "v",
         ["`k2` value is not valid", "second failure"]⟩]⟩) := by
  refine ⟨?_, ?_, rfl⟩
  · intro env field defn value data rids₁ rids₂
    induction rids₁ with
    | nil =>
      cases h : ruleMessages env field defn value data rids₂ <;>
        simp [ruleMessages, h]
    | cons rid rest ih =>
      cases hval : (env rid).validator value defn data with
      | error e => simp [ruleMessages, hval]
      | ok b =>
        cases b with
        | true => simp [ruleMessages, hval, ih]
        | false =>
          cases hmsg : ruleFailMessage env field defn value data rid with
          | error e => simp [ruleMessages, hval, hmsg]
          | ok m =>
            cases h1 : ruleMessages env field defn value data rest with
            | error e => simp [ruleMessages, hval, hmsg, ih, h1]
            | ok ms₁ =>
              cases h2 : ruleMessages env field defn value data rids₂ with
              | error e => simp [ruleMessages, hval, hmsg, ih, h1, h2]
              | ok ms₂ => simp [ruleMessages, hval, hmsg, ih, h1, h2]
  · intro env field defn value data rid m hval hmsg
    rw [ruleMessages, hval, hmsg]
    exact rfl

/-- Witness for C7's single-failure clause at a concrete failing rule. -/
theorem rules_not_short_circuited_witness :
    ruleMessages failEnv "z" ⟨.inl .string, none, [0]⟩ (.str "q") [] [0] =
      .ok ["`z` value is not valid"] :=
  rules_not_short_circuited.2.1 failEnv "z" ⟨.inl .string, none, [0]⟩
    (.str "q") [] 0 "`z` value is not valid" rfl rfl

/-- Every entry of the expected error list belongs to a schema field and
carries exactly that field's (non-empty) message list and components. -/
theorem expectedErrors_mem (env : RuleEnv) (dt : JSVal → Bool)
    (origin : DataOriginType) (data : Data) (options : ValidateOptions)
    (errs : List ValidationError)
    (h : expectedErrors env dt origin data options = .ok errs) :
    ∀ e ∈ errs, ∃ defn, (e.field, defn) ∈ options ∧
      fieldMessages env dt origin data e.field defn = .ok e.message ∧
      e.message ≠ [] ∧ e.origin = origin ∧ e.type = fieldTypeOf defn ∧
      e.value = jsGet data e.field := by
  induction options generalizing errs with
  | nil =>
    rw [expectedErrors] at h
    injection h with h
    subst h
    intro e he
    cases he
  | cons fd rest ih =>
    obtain ⟨field, defn⟩ := fd
    rw [expectedErrors] at h
    cases hm : fieldMessages env dt origin data field defn with
    | error e₂ =>
      rw [hm] at h
      have h₂ : (Except.error e₂ :
          Except JSVal (List ValidationError)) = .ok errs := h
      cases h₂
    | ok msgs =>
      rw [hm] at h
      cases he2 : expectedErrors env dt origin data rest with
      | error e₂ =>
        rw [he2] at h
        have h₂ : (Except.error e₂ :
            Except JSVal (List ValidationError)) = .ok errs := h
        cases h₂
      | ok others =>
        rw [he2] at h
        have h₂ : (Except.ok ((if msgs = [] then []
            else [⟨origin, field, fieldTypeOf defn, jsGet data field, msgs⟩])
            ++ others) : Except JSVal (List ValidationError)) = .ok errs := h
        injection h₂ with h₂
        subst h₂
        intro e he
        rcases List.mem_append.mp he with he | he
        · rcases eq_or_ne msgs [] with hmn | hmn
          · rw [if_pos hmn] at he
            cases he
          · rw [if_neg hmn] at he
            simp only [List.mem_singleton] at he
            subst he
            exact ⟨defn, List.mem_cons_self _ _, hm, hmn, rfl, rfl, rfl⟩
        · obtain ⟨defn₂, hmem, hrest⟩ := ih others he2 e he
          exact ⟨defn₂, List.mem_cons_of_mem _ hmem, hrest⟩

/-- The expected error list carries distinct field names when the schema's
keys are distinct. -/
theorem expectedErrors_fields_nodup (env : RuleEnv) (dt : JSVal → Bool)
    (origin : DataOriginType) (data : Data) (options : ValidateOptions)
    (errs : List ValidationError)
    (hnd : (options.map Prod.fst).Nodup)
    (h : expectedErrors env dt origin data options = .ok errs) :
    (errs.map (fun e => e.field)).Nodup := by
  induction options generalizing errs with
  | nil =>
    rw [expectedErrors] at h
    injection h with h
    subst h
    simp
  | cons fd rest ih =>
    obtain ⟨field, defn⟩ := fd
    simp only [List.map_cons, List.nodup_cons] at hnd
    obtain ⟨hnotin, hndrest⟩ := hnd
    rw [expectedErrors] at h
    cases hm : fieldMessages env dt origin data field defn with
    | error e₂ =>
      rw [hm] at h
      have h₂ : (Except.error e₂ :
          Except JSVal (List ValidationError)) = .ok errs := h
      cases h₂
    | ok msgs =>
      rw [hm] at h
      cases he2 : expectedErrors env dt origin data rest with
      | error e₂ =>
        rw [he2] at h
        have h₂ : (Except.error e₂ :
            Except JSVal (List ValidationError)) = .ok errs := h
        cases h₂
      | ok others =>
        rw [he2] at h
        have h₂ : (Except.ok ((if msgs = [] then []
            else [⟨origin, field, fieldTypeOf defn, jsGet data field, msgs⟩])
            ++ others) : Except JSVal (List ValidationError)) = .ok errs := h
        injection h₂ with h₂
        subst h₂
        have hrest := ih others hndrest he2
        rcases eq_or_ne msgs [] with hmn | hmn
        · rw [if_pos hmn]
          simpa using hrest
        · rw [if_neg hmn]
          simp only [List.singleton_append, List.map_cons, List.nodup_cons]
          refine ⟨?_, hrest⟩
          intro hc
          simp only [List.mem_map] at hc
          obtain ⟨e, hein, hfe⟩ := hc
          obtain ⟨defn₂, hmem, -⟩ :=
            expectedErrors_mem env dt origin data rest others he2 e hein
          apply hnotin
          rw [← hfe]
          exact List.mem_map_of_mem Prod.fst hmem

/-- A list whose image under `g` has no duplicates keeps at most one element
in any `g`-fiber. -/
theorem length_filter_fiber_le_one {α : Type} (l : List α) (g : α → String)
    (hnd : (l.map g).Nodup) (f : String) :
    (l.filter (fun x => g x == f)).length ≤ 1 := by
  induction l with
  | nil => simp
  | cons a rest ih =>
    simp only [List.map_cons, List.nodup_cons] at hnd
    obtain ⟨hna, hnd⟩ := hnd
    rw [List.filter_cons]
    by_cases hga : (g a == f) = true
    · rw [if_pos hga]
      have hfe : rest.filter (fun x => g x == f) = [] := by
        rw [List.filter_eq_nil_iff]
        intro x hx hgx
        apply hna
        rw [beq_iff_eq] at hga hgx
        rw [hga, ← hgx]
        exact List.mem_map_of_mem g hx
      rw [hfe]
      simp
    · rw [if_neg hga]
      exact ih hnd

/-- Claim C2: in a successful run over a schema with distinct keys, the
errors list holds at most one entry per field name, and each entry's message
list is exactly the field's required-failure message (if any) followed by its
type-mismatch message (if any) followed by its rule-failure messages in
declared rule order. -/
theorem validate_one_entry_per_field (env : RuleEnv) (dt : JSVal → Bool)
    (data : Data) (origin : DataOriginType) (options : ValidateOptions)
    (r : ValidationResult) (hnd : (options.map Prod.fst).Nodup)
    (h : validate env dt data origin options = .ok r) :
    (∀ f : String,
      (r.errors.filter (fun e => e.field == f)).length ≤ 1) ∧
    (∀ e ∈ r.errors, ∃ defn rmsgs, (e.field, defn) ∈ options ∧
      ruleMessages env e.field defn (jsGet data e.field) data defn.rules =
        .ok rmsgs ∧
      e.message = requiredMessages e.field defn (jsGet data e.field) ++
        typeMessages dt origin e.field defn (jsGet data e.field) ++
        rmsgs) := by
  rw [validate_eq env dt data origin options hnd] at h
  cases he : expectedErrors env dt origin data options with
  | error e₂ =>
    rw [he] at h
    have h₂ : (Except.error e₂ : Except JSVal ValidationResult) = .ok r := h
    cases h₂
  | ok errs =>
    rw [he] at h
    have h₂ : (Except.ok (⟨String.intercalate "; "
        (errs.map fun e => String.intercalate "; " e.message), errs⟩ :
        ValidationResult) : Except JSVal ValidationResult) = .ok r := h
    injection h₂ with h₂
    have herr : r.errors = errs := by
      rw [← h₂]
    constructor
    · intro f
      rw [herr]
      exact length_filter_fiber_le_one errs (fun e => e.field)
        (expectedErrors_fields_nodup env dt origin data options errs hnd he) f
    · intro e hein
      rw [herr] at hein
      obtain ⟨defn, hmem, hfm, hne, -, -, -⟩ :=
        expectedErrors_mem env dt origin data options errs he e hein
      rw [fieldMessages] at hfm
      by_cases hg : (isRequired defn || !isEmpty (jsGet data e.field)) = true
      · rw [if_pos hg] at hfm
        cases hr : ruleMessages env e.field defn (jsGet data e.field) data
            defn.rules with
        | error e₂ =>
          rw [hr] at hfm
          have h₃ : (Except.error e₂ :
              Except JSVal (List String)) = .ok e.message := hfm
          cases h₃
        | ok rmsgs =>
          rw [hr] at hfm
          have h₃ : (Except.ok (requiredMessages e.field defn
              (jsGet data e.field) ++ typeMessages dt origin e.field defn
              (jsGet data e.field) ++ rmsgs) :
              Except JSVal (List String)) = .ok e.message := hfm
          injection h₃ with h₃
          exact ⟨defn, rmsgs, hmem, hr, h₃.symm⟩
      · rw [if_neg hg] at hfm
        have h₃ : (Except.ok (requiredMessages e.field defn
            (jsGet data e.field) ++ typeMessages dt origin e.field defn
            (jsGet data e.field) ++ []) :
            Except JSVal (List String)) = .ok e.message := hfm
        injection h₃ with h₃
        have h1 : isRequired defn = false := by
          cases hb : isRequired defn
          · rfl
          · rw [hb] at hg
            simp at hg
        have h2 : isEmpty (jsGet data e.field) = true := by
          cases hb : isEmpty (jsGet data e.field)
          · rw [hb, h1] at hg
            simp at hg
          · rfl
        exfalso
        apply hne
        rw [← h₃]
        simp [requiredMessages, typeMessages, h1, h2]

/-- Witness for C2 at a concrete run with one required miss. -/
theorem validate_one_entry_per_field_witness :
    (∀ f : String,
      ((ValidationResult.mk "The field `name` is required"
        [⟨.body, "name", .string, .undefined,
          ["The field `name` is required"]⟩]).errors.filter
        (fun e => e.field == f)).length ≤ 1) ∧
    (∀ e ∈ (ValidationResult.mk "The field `name` is required"
        [⟨.body, "name", .string, .undefined,
          ["The field `name` is required"]⟩]).errors,
      ∃ defn rmsgs,
        (e.field, defn) ∈
          ([("name", ⟨.inl .string, some (.inl true), []⟩)] :
            ValidateOptions) ∧
        ruleMessages passEnv e.field defn (jsGet [] e.field) [] defn.rules =
          .ok rmsgs ∧
        e.message = requiredMessages e.field defn (jsGet [] e.field) ++
          typeMessages dateAlwaysValid .body e.field defn (jsGet [] e.field) ++
          rmsgs) :=
  validate_one_entry_per_field passEnv dateAlwaysValid [] .body
    [("name", ⟨.inl .string, some (.inl true), []⟩)]
    ⟨"The field `name` is required",
      [⟨.body, "name", .string, .undefined,
        ["The field `name` is required"]⟩]⟩
    (by simp) rfl

end NoreValidator
